import Mathlib

set_option maxRecDepth 16384

/-!
Shallow embedding of the text-sanitization pipeline in
`src/open_llm_vtuber/utils/tts_preprocessor.py`, together with theorems
settling the specification claims about it.

Conventions of the embedding:
* Python strings are Lean `String`s (lists of Unicode scalar values).
* The scanning loops of the regex substitutions are written as
  fuel-indexed structural recursions; the fuel is always instantiated with
  the length of the scanned list, which is enough for every step since each
  step consumes at least one character.  Running out of fuel returns the
  remaining input unchanged, which never happens at the chosen fuel.
* `unicodedata` (NFKC normalization and general categories) and the
  whitespace classification of Python's `str`/`re` are external library
  tables; they are embedded as finite tables that agree with the Unicode
  character database on every character this development touches (all of
  ASCII plus the handful of non-ASCII characters appearing in the source
  and in the theorems below) and are the identity / `Cn` elsewhere.
-/

namespace TTSPre

/-- Python whitespace (`str.isspace`, and regex `\s` on `str` patterns):
space, the ASCII control whitespace, the information separators, NEL and
NBSP.  This is the exact Python set restricted to code points below 0x100;
higher whitespace code points do not occur in this development. -/
def pyIsSpace (c : Char) : Bool :=
  c == ' ' || c == '\t' || c == '\n' || c == '\r' ||
  c == Char.ofNat 0x0b || c == Char.ofNat 0x0c ||
  c == Char.ofNat 0x1c || c == Char.ofNat 0x1d || c == Char.ofNat 0x1e ||
  c == Char.ofNat 0x1f || c == Char.ofNat 0x85 || c == Char.ofNat 0xa0

/-- Scanner of `re.sub(r"\s+", " ", s)`: every maximal whitespace run
becomes one space.  The flag records whether the previous character was
whitespace (i.e. whether we are inside a run already replaced). -/
def collapseRunsAux : Bool → List Char → List Char
  | _, [] => []
  | prevWs, c :: rest =>
    if pyIsSpace c then
      if prevWs then collapseRunsAux true rest
      else ' ' :: collapseRunsAux true rest
    else c :: collapseRunsAux false rest

/-- Python `str.strip()`: drop whitespace from both ends. -/
def pyStrip (l : List Char) : List Char :=
  ((l.dropWhile pyIsSpace).reverse.dropWhile pyIsSpace).reverse

/-- `re.sub(r"\s+", " ", s).strip()` — the whitespace cleanup that ends
every bracket/asterisk/list-marker stage of the source. -/
def collapseWs (s : String) : String :=
  String.mk (pyStrip (collapseRunsAux false s.data))

/-- Loop body of `_filter_nested`: scan with an integer depth, increment on
the left delimiter, decrement on the right delimiter only when positive,
and emit an ordinary character only at depth zero. -/
def filterNestedAux (left right : Char) : Nat → List Char → List Char
  | _, [] => []
  | depth, c :: rest =>
    if c == left then filterNestedAux left right (depth + 1) rest
    else if c == right then
      filterNestedAux left right (if 0 < depth then depth - 1 else depth) rest
    else if depth == 0 then c :: filterNestedAux left right depth rest
    else filterNestedAux left right depth rest

/-- `_filter_nested(text, left, right)`.  The source's `TypeError` branch
cannot fire in the embedding (the argument is a string by type), and its
early return on the empty string agrees with the generic path. -/
def _filter_nested (text : String) (left right : Char) : String :=
  collapseWs (String.mk (filterNestedAux left right 0 text.data))

/-- `filter_brackets(text)`. -/
def filter_brackets (text : String) : String := _filter_nested text '[' ']'

/-- `filter_parentheses(text)`. -/
def filter_parentheses (text : String) : String := _filter_nested text '(' ')'

/-- `filter_angle_brackets(text)`. -/
def filter_angle_brackets (text : String) : String := _filter_nested text '<' '>'

/-! ### Helper lemmas about the scanners -/

theorem mem_filterNestedAux {left right c : Char} :
    ∀ (l : List Char) (depth : Nat),
      c ∈ filterNestedAux left right depth l → c ≠ left ∧ c ≠ right := by
  intro l
  induction l with
  | nil => intro depth h; simp [filterNestedAux] at h
  | cons d t ih =>
    intro depth h
    simp only [filterNestedAux] at h
    by_cases h1 : d == left
    · rw [if_pos h1] at h; exact ih _ h
    · rw [if_neg h1] at h
      by_cases h2 : d == right
      · rw [if_pos h2] at h; exact ih _ h
      · rw [if_neg h2] at h
        by_cases h3 : depth == 0
        · rw [if_pos h3] at h
          rcases List.mem_cons.mp h with hc | hc
          · subst hc
            exact ⟨by simpa using h1, by simpa using h2⟩
          · exact ih _ hc
        · rw [if_neg h3] at h; exact ih _ h

theorem filterNestedAux_pos_nil {left right : Char} :
    ∀ (l : List Char) (depth : Nat), 0 < depth → (∀ c ∈ l, c ≠ right) →
      filterNestedAux left right depth l = [] := by
  intro l
  induction l with
  | nil => intro depth _ _; simp [filterNestedAux]
  | cons d t ih =>
    intro depth hd hr
    simp only [filterNestedAux]
    by_cases h1 : d == left
    · rw [if_pos h1]
      exact ih _ (Nat.succ_pos _) fun c hc => hr c (List.mem_cons_of_mem _ hc)
    · rw [if_neg h1]
      by_cases h2 : d == right
      · exact absurd (by simpa using h2) (hr d (List.mem_cons_self d t))
      · rw [if_neg h2]
        have h3 : (depth == 0) = false := by
          simp [Nat.pos_iff_ne_zero.mp hd]
        rw [h3]
        simp only [Bool.false_eq_true, if_false]
        exact ih _ hd fun c hc => hr c (List.mem_cons_of_mem _ hc)

theorem filterNestedAux_unmatched {left right : Char} :
    ∀ (pre suf : List Char),
      (∀ c ∈ pre, c ≠ left ∧ c ≠ right) → (∀ c ∈ suf, c ≠ right) →
      filterNestedAux left right 0 (pre ++ left :: suf) = pre := by
  intro pre
  induction pre with
  | nil =>
    intro suf _ hsuf
    simp only [List.nil_append, filterNestedAux, beq_self_eq_true, if_pos]
    exact filterNestedAux_pos_nil suf 1 Nat.one_pos hsuf
  | cons d t ih =>
    intro suf hpre hsuf
    have hd := hpre d (List.mem_cons_self d t)
    have h1 : (d == left) = false := by simpa using hd.1
    have h2 : (d == right) = false := by simpa using hd.2
    simp only [List.cons_append, filterNestedAux, h1, h2, Bool.false_eq_true,
      if_false, beq_self_eq_true, if_pos, if_true]
    rw [List.append_eq, ih suf (fun c hc => hpre c (List.mem_cons_of_mem _ hc)) hsuf]

theorem filterNestedAux_id {left right : Char} :
    ∀ l : List Char, (∀ c ∈ l, c ≠ left ∧ c ≠ right) →
      filterNestedAux left right 0 l = l := by
  intro l
  induction l with
  | nil => intro _; simp [filterNestedAux]
  | cons d t ih =>
    intro h
    have hd := h d (List.mem_cons_self d t)
    have h1 : (d == left) = false := by simpa using hd.1
    have h2 : (d == right) = false := by simpa using hd.2
    simp only [filterNestedAux, h1, h2, Bool.false_eq_true, if_false,
      beq_self_eq_true, if_true]
    rw [ih fun c hc => h c (List.mem_cons_of_mem _ hc)]

theorem mem_collapseRunsAux {c : Char} :
    ∀ (l : List Char) (b : Bool), c ∈ collapseRunsAux b l → c = ' ' ∨ c ∈ l := by
  intro l
  induction l with
  | nil => intro b h; simp [collapseRunsAux] at h
  | cons d t ih =>
    intro b h
    simp only [collapseRunsAux] at h
    by_cases hw : pyIsSpace d
    · rw [if_pos hw] at h
      cases b with
      | true =>
        simp only [if_pos rfl] at h
        rcases ih _ h with h' | h'
        · exact Or.inl h'
        · exact Or.inr (List.mem_cons_of_mem _ h')
      | false =>
        simp only [Bool.false_eq_true, if_false] at h
        rcases List.mem_cons.mp h with hc | hc
        · exact Or.inl hc
        · rcases ih _ hc with h' | h'
          · exact Or.inl h'
          · exact Or.inr (List.mem_cons_of_mem _ h')
    · rw [if_neg hw] at h
      rcases List.mem_cons.mp h with hc | hc
      · exact Or.inr (hc ▸ List.mem_cons_self d t)
      · rcases ih _ hc with h' | h'
        · exact Or.inl h'
        · exact Or.inr (List.mem_cons_of_mem _ h')

theorem mem_of_mem_dropWhile {c : Char} {p : Char → Bool} :
    ∀ {l : List Char}, c ∈ l.dropWhile p → c ∈ l := by
  intro l
  induction l with
  | nil => intro h; simp at h
  | cons d t ih =>
    intro h
    rw [List.dropWhile_cons] at h
    by_cases hp : p d
    · rw [if_pos hp] at h; exact List.mem_cons_of_mem _ (ih h)
    · rw [if_neg hp] at h; exact h

theorem mem_pyStrip {c : Char} {l : List Char} : c ∈ pyStrip l → c ∈ l := by
  intro h
  unfold pyStrip at h
  rw [List.mem_reverse] at h
  have h1 := mem_of_mem_dropWhile h
  rw [List.mem_reverse] at h1
  exact mem_of_mem_dropWhile h1

theorem mem_collapseWs {c : Char} {s : String} :
    c ∈ (collapseWs s).data → c = ' ' ∨ c ∈ s.data := by
  intro h
  exact mem_collapseRunsAux _ _ (mem_pyStrip h)

/-! ### Claims C2 and C7: the nested-delimiter stripper -/

/-- C2 counterexample.  The claim states that
`filter_angle_brackets "a>b<c>d" = "ab d"`; in fact the input contains no
whitespace, the depth-0 closer `>` and the span `<c>` are simply removed,
and the characters `a`, `b`, `d` are emitted adjacently, so the output is
`"abd"`, not `"ab d"`. -/
theorem C2_counterexample : filter_angle_brackets "a>b<c>d" ≠ "ab d" := by decide

/-- C2, amended: applying the nested-span stripper with delimiters `<` and
`>` to `"a>b<c>d"` yields `"abd"`: the leading unmatched `>` is silently
dropped as a no-op (the function is total, no error is raised), the span
`<c>` is removed, and since the input contains no whitespace the collapse
step leaves the remaining characters adjacent. -/
theorem C2_amended_thm : filter_angle_brackets "a>b<c>d" = "abd" := by decide

/-- C7: in `_filter_nested` the delimiter characters themselves are never
emitted by the scan (first conjunct, for every depth); an unmatched open
delimiter with no subsequent close delimiter removes everything from that
point on (second conjunct); `filter_parentheses "x(y" = "x"`; and fully
nested spans are removed entirely, `filter_brackets "a[b[c]d]e" = "ae"`. -/
theorem C7_nested_stripper :
    (∀ (left right : Char) (text : List Char) (depth : Nat) (c : Char),
        c ∈ filterNestedAux left right depth text → c ≠ left ∧ c ≠ right)
    ∧ (∀ (left right : Char) (pre suf : List Char),
        (∀ c ∈ pre, c ≠ left ∧ c ≠ right) → (∀ c ∈ suf, c ≠ right) →
        filterNestedAux left right 0 (pre ++ left :: suf) = pre)
    ∧ filter_parentheses "x(y" = "x"
    ∧ filter_brackets "a[b[c]d]e" = "ae" := by
  refine ⟨?_, ?_, by decide, by decide⟩
  · intro left right text depth c h
    exact mem_filterNestedAux text depth h
  · intro left right pre suf hpre hsuf
    exact filterNestedAux_unmatched pre suf hpre hsuf

/-- Witness for C7 at concrete inputs: the scan of `"x(y"` emits `x`, which
is neither delimiter, and the unmatched-opener clause applied to
`pre = "x"`, `suf = "y"` returns exactly `pre`. -/
theorem C7_nested_stripper_witness :
    ('x' ≠ '(' ∧ 'x' ≠ ')')
    ∧ filterNestedAux '(' ')' 0 (['x'] ++ '(' :: ['y']) = ['x'] := by
  constructor
  · exact C7_nested_stripper.1 '(' ')' ['x', '(', 'y'] 0 'x' (by decide)
  · exact C7_nested_stripper.2.1 '(' ')' ['x'] ['y'] (by decide) (by decide)

/-! ### The asterisk-emphasis remover -/

/-- Characters the interior `((?!\*).)*?` of the asterisk pattern can
match: anything but an asterisk (the lookahead) and anything but a newline
(`.` does not cross lines in a Python non-DOTALL pattern). -/
def astMid (d : Char) : Bool := !(d == '*') && !(d == '\n')

/-- Scanner of `re.sub(r"\*{1,}((?!\*).)*?\*{1,}", "", text)`, the
substitution inside `filter_asterisks`.  At an asterisk run the regex
engine behaves as follows (greedy first `\*{1,}`, lazy interior, greedy
final `\*{1,}`, leftmost match): if another asterisk is reachable without
crossing a newline, the match extends through that whole partner run;
otherwise a run of length at least two matches itself (first `\*{1,}`
gives one asterisk back, empty interior, final `\*{1,}` takes the rest),
and a lone asterisk does not match and is emitted. -/
def astScanF : Nat → List Char → List Char
  | 0, l => l
  | _ + 1, [] => []
  | fuel + 1, c :: rest =>
    if c = '*' then
      if ((rest.dropWhile (· == '*')).dropWhile astMid).head? = some '*' then
        astScanF fuel (((rest.dropWhile (· == '*')).dropWhile astMid).dropWhile (· == '*'))
      else if rest.takeWhile (· == '*') = [] then
        '*' :: astScanF fuel (rest.dropWhile (· == '*'))
      else astScanF fuel (rest.dropWhile (· == '*'))
    else c :: astScanF fuel rest

/-- `filter_asterisks(text)`: the asterisk-span substitution followed by
whitespace collapse and strip. -/
def filter_asterisks (text : String) : String :=
  collapseWs (String.mk (astScanF text.data.length text.data))

theorem astScanF_nil : ∀ f : Nat, astScanF f [] = [] := by
  intro f; cases f <;> rfl

theorem takeWhile_cons_false (p : Char → Bool) (d : Char) (t : List Char)
    (hd : p d = false) : (d :: t).takeWhile p = [] := by
  simp [List.takeWhile_cons, hd]

theorem dropWhile_cons_false (p : Char → Bool) (d : Char) (t : List Char)
    (hd : p d = false) : (d :: t).dropWhile p = d :: t := by
  simp [List.dropWhile_cons, hd]

theorem dropWhile_append_true_false {p : Char → Bool} {d : Char} :
    ∀ (a t : List Char), (∀ c ∈ a, p c = true) → p d = false →
      (a ++ d :: t).dropWhile p = d :: t := by
  intro a
  induction a with
  | nil =>
    intro t _ hd
    simpa using dropWhile_cons_false p d t hd
  | cons e a' ih =>
    intro t ha hd
    have he : p e = true := ha e (List.mem_cons_self e a')
    simp only [List.cons_append, List.dropWhile_cons, he, if_true]
    exact ih t (fun c hc => ha c (List.mem_cons_of_mem _ hc)) hd

/-- The step of `astScanF` at a lone asterisk: no partner run on the same
line and an initial run of length one means the asterisk is emitted and
scanning continues after it. -/
theorem astScanF_cons_lone {rest : List Char} {f : Nat}
    (h1 : ((rest.dropWhile (· == '*')).dropWhile astMid).head? ≠ some '*')
    (h2 : rest.takeWhile (· == '*') = []) :
    astScanF (f + 1) ('*' :: rest)
      = '*' :: astScanF f (rest.dropWhile (· == '*')) := by
  simp only [astScanF, if_pos rfl, if_neg h1, if_pos h2]
  simp [h2]

theorem astScanF_no_star :
    ∀ (l : List Char) (f : Nat), (∀ c ∈ l, c ≠ '*') → astScanF f l = l := by
  intro l
  induction l with
  | nil => intro f _; exact astScanF_nil f
  | cons c t ih =>
    intro f h
    cases f with
    | zero => rfl
    | succ f =>
      have hc : c ≠ '*' := h c (List.mem_cons_self c t)
      simp only [astScanF, if_neg hc]
      rw [ih f (fun d hd => h d (List.mem_cons_of_mem _ hd))]

theorem takeWhile_star_nil {l : List Char} (h : ∀ c ∈ l, c ≠ '*') :
    l.takeWhile (· == '*') = [] := by
  cases l with
  | nil => rfl
  | cons d t =>
    exact takeWhile_cons_false _ d t
      (by simpa using h d (List.mem_cons_self d t))

theorem dropWhile_star_id {l : List Char} (h : ∀ c ∈ l, c ≠ '*') :
    l.dropWhile (· == '*') = l := by
  cases l with
  | nil => rfl
  | cons d t =>
    exact dropWhile_cons_false _ d t
      (by simpa using h d (List.mem_cons_self d t))

theorem head_dropWhile_astMid_ne_star {l : List Char} (h : ∀ c ∈ l, c ≠ '*') :
    (l.dropWhile astMid).head? ≠ some '*' := by
  intro hcontra
  cases hM : l.dropWhile astMid with
  | nil => rw [hM] at hcontra; simp at hcontra
  | cons d rem =>
    rw [hM] at hcontra
    simp only [List.head?_cons, Option.some.injEq] at hcontra
    have hd : d ∈ l := mem_of_mem_dropWhile (hM ▸ List.mem_cons_self d rem)
    exact h d hd hcontra

theorem astScanF_starFreeTail :
    ∀ (m : List Char) (f : Nat), (∀ c ∈ m, c ≠ '*') →
      astScanF f (m ++ ['*']) = m ++ ['*'] := by
  intro m
  induction m with
  | nil =>
    intro f _
    cases f with
    | zero => rfl
    | succ f =>
      show astScanF (f + 1) ('*' :: []) = ['*']
      rw [astScanF_cons_lone (by decide) (by decide)]
      simp [astScanF_nil]
  | cons c t ih =>
    intro f h
    cases f with
    | zero => rfl
    | succ f =>
      have hc : c ≠ '*' := h c (List.mem_cons_self c t)
      show astScanF (f + 1) (c :: (t ++ ['*'])) = c :: (t ++ ['*'])
      simp only [astScanF, if_neg hc]
      exact congrArg (List.cons c) (ih f fun d hd => h d (List.mem_cons_of_mem _ hd))

theorem astScanF_single_star :
    ∀ (pre post : List Char) (f : Nat),
      (∀ c ∈ pre, c ≠ '*') → (∀ c ∈ post, c ≠ '*') →
      astScanF f (pre ++ '*' :: post) = pre ++ '*' :: post := by
  intro pre
  induction pre with
  | nil =>
    intro post f _ hpost
    cases f with
    | zero => rfl
    | succ f =>
      have hdw : post.dropWhile (· == '*') = post := dropWhile_star_id hpost
      show astScanF (f + 1) ('*' :: post) = '*' :: post
      rw [astScanF_cons_lone ?h1 (takeWhile_star_nil hpost)]
      · rw [hdw, astScanF_no_star post f hpost]
      · rw [hdw]
        exact head_dropWhile_astMid_ne_star hpost
  | cons c t ih =>
    intro post f hpre hpost
    cases f with
    | zero => rfl
    | succ f =>
      have hc : c ≠ '*' := hpre c (List.mem_cons_self c t)
      show astScanF (f + 1) (c :: (t ++ '*' :: post)) = c :: (t ++ '*' :: post)
      simp only [astScanF, if_neg hc]
      exact congrArg (List.cons c)
        (ih post f (fun d hd => hpre d (List.mem_cons_of_mem _ hd)) hpost)

/-! ### Claims C8 and C10: the asterisk stage -/

/-- C8 counterexample.  The claim says every minimal span bounded by
asterisk runs whose interior contains no asterisk is deleted; the input
`"*a\nb*"` consists of exactly one such span (interior `a\nb`), so under
the claim the output would be empty.  In fact the interior wildcard `.`
does not match the newline, nothing is deleted, and the output is
`"*a b*"` (the newline collapses to a space). -/
theorem C8_counterexample :
    filter_asterisks "*a\nb*" = "*a b*" ∧ filter_asterisks "*a\nb*" ≠ "" := by
  constructor
  · decide
  · decide

/-- C8, amended: `filter_asterisks` deletes every minimal span bounded on
each side by a run of one-or-more asterisks whose interior contains no
asterisk *and no newline* character, leaves asterisk characters not part
of any such matched span untouched, and then collapses whitespace runs to
one space and trims.  On `"**bold** and *italic* text"` it returns
`"and text"` (first conjunct), and a text whose only asterisk is a single
one is changed by at most the whitespace collapse (second conjunct). -/
theorem C8_amended_thm :
    filter_asterisks "**bold** and *italic* text" = "and text"
    ∧ ∀ (pre post : List Char), (∀ c ∈ pre, c ≠ '*') → (∀ c ∈ post, c ≠ '*') →
        filter_asterisks (String.mk (pre ++ '*' :: post))
          = collapseWs (String.mk (pre ++ '*' :: post)) := by
  constructor
  · decide
  · intro pre post hpre hpost
    unfold filter_asterisks
    rw [show (String.mk (pre ++ '*' :: post)).data = pre ++ '*' :: post from rfl]
    rw [astScanF_single_star pre post _ hpre hpost]

/-- Witness for C8 at a concrete input: `"a*b"` contains a single lone
asterisk and passes through the stage unchanged but for the collapse. -/
theorem C8_amended_witness :
    filter_asterisks (String.mk (['a'] ++ '*' :: ['b']))
      = collapseWs (String.mk (['a'] ++ '*' :: ['b'])) :=
  C8_amended_thm.2 ['a'] ['b'] (by decide) (by decide)

/-- C10 counterexample.  The claim says asterisk pairs separated by a line
break are left in the output; on `"**a\nb**"` each `**` run is a complete
match of the pattern on its own (empty interior), so both runs are removed
and no asterisk is left in the output. -/
theorem C10_counterexample :
    filter_asterisks "**a\nb**" = "a b" ∧ "a b".data.contains '*' = false := by
  constructor
  · decide
  · decide

/-- C10, amended: the interior of a match never crosses a newline, so a
pair of *single* asterisks whose interior contains a line break (and no
asterisk) is left in the output, changed by at most the whitespace
collapse; however an asterisk run of length two or more is itself a
complete match with empty interior, so such runs are removed even when
their would-be partner lies on another line. -/
theorem C10_amended_thm (a b : List Char)
    (ha : ∀ c ∈ a, c ≠ '*' ∧ c ≠ '\n') (hb : ∀ c ∈ b, c ≠ '*') :
    filter_asterisks (String.mk ('*' :: (a ++ '\n' :: (b ++ ['*']))))
      = collapseWs (String.mk ('*' :: (a ++ '\n' :: (b ++ ['*'])))) := by
  unfold filter_asterisks
  have hmidfree : ∀ c ∈ a ++ '\n' :: b, c ≠ '*' := by
    intro c hc
    rcases List.mem_append.mp hc with h | h
    · exact (ha c h).1
    · rcases List.mem_cons.mp h with h' | h'
      · subst h'; decide
      · exact hb c h'
  have hid : ∀ f : Nat, astScanF f ('*' :: (a ++ '\n' :: (b ++ ['*'])))
      = '*' :: (a ++ '\n' :: (b ++ ['*'])) := by
    intro f
    cases f with
    | zero => rfl
    | succ f =>
      have hastar : ∀ c ∈ a, ((· == '*') : Char → Bool) c = false := by
        intro c hc; simpa using (ha c hc).1
      have hamid : ∀ c ∈ a, astMid c = true := by
        intro c hc
        have h1 := (ha c hc).1
        have h2 := (ha c hc).2
        simp [astMid, h1, h2]
      have htw : (a ++ '\n' :: (b ++ ['*'])).takeWhile (· == '*') = [] := by
        cases a with
        | nil => exact takeWhile_cons_false _ _ _ (by decide)
        | cons e a' =>
          exact takeWhile_cons_false _ _ _ (hastar e (List.mem_cons_self e a'))
      have hdw : (a ++ '\n' :: (b ++ ['*'])).dropWhile (· == '*')
          = a ++ '\n' :: (b ++ ['*']) := by
        cases a with
        | nil => exact dropWhile_cons_false _ _ _ (by decide)
        | cons e a' =>
          exact dropWhile_cons_false _ _ _ (hastar e (List.mem_cons_self e a'))
      have hmid : (a ++ '\n' :: (b ++ ['*'])).dropWhile astMid
          = '\n' :: (b ++ ['*']) :=
        dropWhile_append_true_false a (b ++ ['*']) hamid (by decide)
      rw [astScanF_cons_lone ?h1 htw]
      case h1 =>
        rw [hdw, hmid]
        simp
      rw [hdw]
      have hsplit : a ++ '\n' :: (b ++ ['*']) = (a ++ '\n' :: b) ++ ['*'] := by
        simp
      rw [hsplit, astScanF_starFreeTail (a ++ '\n' :: b) f hmidfree]
  rw [hid]

/-- Witness for C10 at a concrete input: `"*a\nb*"` keeps both single
asterisks, the newline collapsing to one space. -/
theorem C10_amended_witness :
    filter_asterisks (String.mk ('*' :: (['a'] ++ '\n' :: (['b'] ++ ['*']))))
      = collapseWs (String.mk ('*' :: (['a'] ++ '\n' :: (['b'] ++ ['*'])))) :=
  C10_amended_thm ['a'] ['b'] (by decide) (by decide)

/-! ### The Unicode-category character filter -/

/-- `unicodedata.normalize("NFKC", ·)`, embedded as a character-by-character
table.  On the character set of this development NFKC acts pointwise; the
table lists exactly the NFKC-unstable characters that occur here (the fi
ligature, full-width punctuation, NBSP) with their true normalizations and
is the identity elsewhere. -/
def nfkcChar (c : Char) : List Char :=
  if c = Char.ofNat 0xfb01 then ['f', 'i']
  else if c = Char.ofNat 0xff0e then ['.']
  else if c = Char.ofNat 0xff08 then ['(']
  else if c = Char.ofNat 0xff09 then [')']
  else if c = Char.ofNat 0xa0 then [' ']
  else [c]

/-- NFKC normalization of a whole string. -/
def nfkcStr (l : List Char) : List Char := (l.map nfkcChar).flatten

/-- `unicodedata.category`, embedded as a finite table: exact on all of
ASCII and on every non-ASCII character used in this development, and `Cn`
elsewhere. -/
def pyCategory (c : Char) : String :=
  let n := c.toNat
  if n = 32 then "Zs"
  else if n ≤ 31 ∨ n = 127 then "Cc"
  else if 48 ≤ n ∧ n ≤ 57 then "Nd"
  else if 65 ≤ n ∧ n ≤ 90 then "Lu"
  else if 97 ≤ n ∧ n ≤ 122 then "Ll"
  else if n = 33 ∨ n = 34 ∨ n = 35 ∨ n = 37 ∨ n = 38 ∨ n = 39 ∨ n = 42 ∨ n = 44
      ∨ n = 46 ∨ n = 47 ∨ n = 58 ∨ n = 59 ∨ n = 63 ∨ n = 64 ∨ n = 92 then "Po"
  else if n = 95 then "Pc"
  else if n = 45 then "Pd"
  else if n = 41 ∨ n = 93 ∨ n = 125 then "Pe"
  else if n = 40 ∨ n = 91 ∨ n = 123 then "Ps"
  else if n = 36 then "Sc"
  else if n = 94 ∨ n = 96 then "Sk"
  else if n = 43 ∨ n = 60 ∨ n = 61 ∨ n = 62 ∨ n = 124 ∨ n = 126 then "Sm"
  else if n = 0x85 then "Cc"
  else if n = 0xa0 then "Zs"
  else if n = 0x3001 ∨ n = 0x3002 ∨ n = 0xff0e then "Po"
  else if n = 0xff08 then "Ps"
  else if n = 0xff09 then "Pe"
  else if n = 0xfb01 then "Ll"
  else if n = 0x1f600 then "So"
  else "Cn"

/-- Python `str.startswith` specialized to a one-character argument, which
is the only way the source uses it. -/
def startsWithChar (s : String) (c : Char) : Bool := s.data.head? == some c

/-- The inner `is_valid_char` of `remove_special_characters`: the general
category begins with `L`, `N` or `P`, or the character is whitespace. -/
def is_valid_char (c : Char) : Bool :=
  startsWithChar (pyCategory c) 'L' || startsWithChar (pyCategory c) 'N' ||
  startsWithChar (pyCategory c) 'P' || pyIsSpace c

/-- `remove_special_characters(text)`: NFKC-normalize, then keep exactly
the valid characters.  Note there is no whitespace collapse here. -/
def remove_special_characters (text : String) : String :=
  String.mk ((nfkcStr text.data).filter is_valid_char)

/-! ### Claim C9 and the C3 counterexample: the Unicode stage -/

/-- The Unicode-category filter as the specification words it: first
compatibility-compose, then retain a character iff its general category
begins with Letter, Number or Punctuation or it is whitespace; apply no
whitespace collapsing. -/
def uniFilterSpec (text : String) : String :=
  String.mk ((nfkcStr text.data).filter (fun c =>
    startsWithChar (pyCategory c) 'L' || startsWithChar (pyCategory c) 'N' ||
    startsWithChar (pyCategory c) 'P' || pyIsSpace c))

/-- C9: `remove_special_characters` is exactly the spec's pipeline (NFKC
first, then the category/whitespace retention test, no collapsing), and on
`"Hello 😀 World #1!"` it returns `"Hello  World #1!"` — the emoji (category
`So`) is dropped, `#`, `1`, `!` (categories `Po`, `Nd`, `Po`) are kept, and
the double space left where the emoji stood is preserved because this stage
performs no whitespace collapse. -/
theorem C9_unicode_filter :
    (∀ text : String, remove_special_characters text = uniFilterSpec text)
    ∧ remove_special_characters "Hello 😀 World #1!" = "Hello  World #1!" :=
  ⟨fun _ => rfl, by decide⟩

/-- C3 counterexample.  The fi ligature U+FB01 has general category `Ll`,
so `"ﬁ"` contains no character the Unicode-category filter targets; yet
`remove_special_characters "ﬁ" = "fi"` because NFKC rewrites the ligature
before filtering.  The stage therefore changed a pattern-free text by more
than whitespace normalization (the output differs both from the input and
from its whitespace-collapsed form), refuting the claim for the
Unicode-category stage. -/
theorem C3_counterexample :
    is_valid_char (Char.ofNat 0xfb01) = true
    ∧ remove_special_characters "ﬁ" = "fi"
    ∧ remove_special_characters "ﬁ" ≠ "ﬁ"
    ∧ remove_special_characters "ﬁ" ≠ collapseWs "ﬁ" :=
  ⟨by decide, by decide, by decide, by decide⟩

/-! ### The protect/restore formatting cleanup (`filter_special_formatting`) -/

/-- Decimal digits of a natural number, most significant first
(Python `f"{n}"`), fuel-indexed; the fuel `n + 1` always suffices. -/
def natToDecAux : Nat → Nat → List Char
  | 0, _ => []
  | fuel + 1, n =>
    if n < 10 then [Char.ofNat (48 + n)]
    else natToDecAux fuel (n / 10) ++ [Char.ofNat (48 + n % 10)]

/-- Decimal notation of a natural number. -/
def natToDec (n : Nat) : List Char := natToDecAux (n + 1) n

/-- The placeholder `f"__LIVE2D_PROTECT_{protected_counter}__"` generated
by `protect_live2d`. -/
def mkPlaceholder (n : Nat) : List Char :=
  "__LIVE2D_PROTECT_".data ++ natToDec n ++ "__".data

/-- Scanner of `re.sub(r"\[[^\]]+\]", protect_live2d, text)`: each
leftmost match (a `[`, one or more non-`]` characters, then `]`) is
replaced by the placeholder of the running counter, and the
(placeholder, original span) pairs are returned in match order.  An
immediately closed `[]` has an empty interior and is not a match. -/
def protectScanF : Nat → Nat → List Char → List Char × List (List Char × List Char)
  | 0, _, l => (l, [])
  | _ + 1, _, [] => ([], [])
  | fuel + 1, counter, c :: rest =>
    if c = '[' ∧ (rest.dropWhile (· != ']')).head? = some ']'
        ∧ rest.takeWhile (· != ']') ≠ [] then
      (mkPlaceholder counter
          ++ (protectScanF fuel (counter + 1) (rest.dropWhile (· != ']')).tail).1,
        (mkPlaceholder counter, '[' :: rest.takeWhile (· != ']') ++ [']'])
          :: (protectScanF fuel (counter + 1) (rest.dropWhile (· != ']')).tail).2)
    else
      (c :: (protectScanF fuel counter rest).1, (protectScanF fuel counter rest).2)

/-- Scanner of `re.sub(r"(?<!\*)\*(?!\*)", "", text)`: delete every
asterisk with no asterisk neighbour; the lookarounds are evaluated against
the original text, so the scan carries the previous character along. -/
def strayAstAux : Option Char → List Char → List Char
  | _, [] => []
  | prev, c :: rest =>
    if c = '*' ∧ prev ≠ some '*' ∧ rest.head? ≠ some '*' then
      strayAstAux (some c) rest
    else c :: strayAstAux (some c) rest

/-- The stray-asterisk substitution on a whole text. -/
def strayAst (l : List Char) : List Char := strayAstAux none l

/-- Scanner of `re.sub(r"#{1,6}\s+", "", text)` (not line-anchored).  At a
`#` run followed by whitespace, the leftmost match starts `min run 6`
hashes before the run's end, so all but those survive, and the match eats
the maximal whitespace run; a `#` run not followed by whitespace is
emitted unchanged. -/
def headerScanF : Nat → List Char → List Char
  | 0, l => l
  | _ + 1, [] => []
  | fuel + 1, c :: rest =>
    if c = '#' then
      if (rest.dropWhile (· == '#')).takeWhile pyIsSpace ≠ [] then
        List.replicate
            ((rest.takeWhile (· == '#')).length + 1
              - min ((rest.takeWhile (· == '#')).length + 1) 6) '#'
          ++ headerScanF fuel ((rest.dropWhile (· == '#')).dropWhile pyIsSpace)
      else
        '#' :: (rest.takeWhile (· == '#')
          ++ headerScanF fuel (rest.dropWhile (· == '#')))
    else c :: headerScanF fuel rest

/-- One pass of a line-anchored `re.sub(..., "", text)` under MULTILINE.
`tryLine`, called only at line starts of the original text, returns the
remainder after a (nonempty) match together with whether the last consumed
character was a newline, which re-anchors `^` for the continuation. -/
def lineSubF (tryLine : List Char → Option (List Char × Bool)) :
    Nat → Bool → List Char → List Char
  | 0, _, l => l
  | _ + 1, _, [] => []
  | fuel + 1, false, c :: rest => c :: lineSubF tryLine fuel (c == '\n') rest
  | fuel + 1, true, c :: rest =>
    match tryLine (c :: rest) with
    | some p => lineSubF tryLine fuel p.2 p.1
    | none => c :: lineSubF tryLine fuel (c == '\n') rest

/-- The match attempt of `^[-+]\s+` at a line start: a bullet character
followed by at least one whitespace character; the match eats the maximal
whitespace run. -/
def bulletTry (l : List Char) : Option (List Char × Bool) :=
  match l with
  | c :: rest =>
    if (c = '-' ∨ c = '+') ∧ rest.takeWhile pyIsSpace ≠ [] then
      some (rest.dropWhile pyIsSpace,
        (rest.takeWhile pyIsSpace).getLast? == some '\n')
    else none
  | [] => none

/-- Python `str.replace(pat, rep)` for the nonempty patterns the source
uses: replace non-overlapping occurrences left to right. -/
def replaceAllF : Nat → List Char → List Char → List Char → List Char
  | 0, l, _, _ => l
  | _ + 1, [], _, _ => []
  | fuel + 1, c :: rest, pat, rep =>
    if pat.isPrefixOf (c :: rest) then
      rep ++ replaceAllF fuel ((c :: rest).drop pat.length) pat rep
    else c :: replaceAllF fuel rest pat rep

/-- The substitutions of `filter_special_formatting`, each with its
length-sized fuel. -/
def astSub (l : List Char) : List Char := astScanF l.length l

/-- Header-prefix removal on a whole text. -/
def headerSub (l : List Char) : List Char := headerScanF l.length l

/-- Bullet-marker removal on a whole text (the scan begins at a line
start). -/
def bulletSub (l : List Char) : List Char := lineSubF bulletTry l.length true l

/-- The protect pass on a whole text (counter starts at 0). -/
def protectSub (l : List Char) : List Char × List (List Char × List Char) :=
  protectScanF l.length 0 l

/-- `str.replace` on a whole text. -/
def replaceAll (l pat rep : List Char) : List Char := replaceAllF l.length l pat rep

/-- The restore loop: `for placeholder, original in protected_patterns:
text = text.replace(placeholder, original)`. -/
def restoreAll (pairs : List (List Char × List Char)) (l : List Char) : List Char :=
  pairs.foldl (fun acc pr => replaceAll acc pr.1 pr.2) l

/-- `filter_special_formatting(text)`: protect `[...]` spans behind
placeholders, remove asterisk-emphasis spans, remove remaining stray
asterisks, remove markdown header prefixes, remove line-leading bullet
markers, restore the recorded placeholders in order, and collapse
whitespace. -/
def filter_special_formatting (text : String) : String :=
  collapseWs (String.mk (restoreAll (protectSub text.data).2
    (bulletSub (headerSub (strayAst (astSub (protectSub text.data).1))))))

/-! ### Claim C1: the protect/restore invariant -/

/-- C1 (the code violates it): on `"*a[b]c*"` the span `[b]` is protected
behind `__LIVE2D_PROTECT_0__`, but the surrounding `*…*` emphasis match
swallows the placeholder, the restore step finds nothing to restore, and
the output is empty — the bracketed span is not preserved, contradicting
the claimed invariant (and the function's own docstring, which promises
that Live2D expression keywords in brackets are preserved). -/
theorem C1_span_deleted : filter_special_formatting "*a[b]c*" = "" := by decide

/-! ### Claim C4: placeholder uniqueness -/

/-- C4 counterexample.  On the input `"__LIVE2D_PROTECT_0__ [hi]"` the
span `[hi]` is protected behind the very token the input already contains
literally; the restore step replaces **all** occurrences, so the literal
text is rewritten into a second copy of the span: the output is
`"[hi] [hi]"`, not the claimed collision-free
`"__LIVE2D_PROTECT_0__ [hi]"`. -/
theorem C4_counterexample :
    filter_special_formatting "__LIVE2D_PROTECT_0__ [hi]" = "[hi] [hi]" := by decide

/-- Decimal value of a digit string, for inverting `natToDec`. -/
def decVal (l : List Char) : Nat := l.foldl (fun a c => a * 10 + (c.toNat - 48)) 0

theorem decVal_append_digit (a : List Char) (m : Nat) (hm : m < 10) :
    decVal (a ++ [Char.ofNat (48 + m)]) = decVal a * 10 + m := by
  have hchar : (Char.ofNat (48 + m)).toNat = 48 + m := by
    interval_cases m <;> decide
  unfold decVal
  rw [List.foldl_append]
  simp [hchar]

theorem decVal_natToDecAux : ∀ (f n : Nat), n < f → decVal (natToDecAux f n) = n := by
  intro f
  induction f with
  | zero => intro n h; exact absurd h (Nat.not_lt_zero n)
  | succ f ih =>
    intro n h
    by_cases h10 : n < 10
    · simp only [natToDecAux, if_pos h10]
      have hchar : (Char.ofNat (48 + n)).toNat = 48 + n := by
        interval_cases n <;> decide
      simp [decVal, hchar]
    · simp only [natToDecAux, if_neg h10]
      have hdiv : n / 10 < f := by omega
      rw [decVal_append_digit _ _ (Nat.mod_lt _ (by norm_num))]
      rw [ih _ hdiv]
      omega

theorem natToDec_inj {m n : Nat} (h : natToDec m = natToDec n) : m = n := by
  have hm := decVal_natToDecAux (m + 1) m (Nat.lt_succ_self m)
  have hn := decVal_natToDecAux (n + 1) n (Nat.lt_succ_self n)
  unfold natToDec at h
  rw [h] at hm
  rw [hn] at hm
  exact hm.symm

theorem mkPlaceholder_inj {m n : Nat} (h : mkPlaceholder m = mkPlaceholder n) :
    m = n := by
  unfold mkPlaceholder at h
  rw [List.append_assoc, List.append_assoc] at h
  have h1 := List.append_cancel_left h
  have h2 := List.append_cancel_right h1
  exact natToDec_inj h2

/-- The placeholders of `count` consecutive counter values starting at
`start`. -/
def phList : Nat → Nat → List (List Char)
  | _, 0 => []
  | start, count + 1 => mkPlaceholder start :: phList (start + 1) count

theorem mem_phList {x : List Char} :
    ∀ (count start : Nat), x ∈ phList start count →
      ∃ k, start ≤ k ∧ x = mkPlaceholder k := by
  intro count
  induction count with
  | zero => intro start h; simp [phList] at h
  | succ count ih =>
    intro start h
    rcases List.mem_cons.mp h with hc | hc
    · exact ⟨start, Nat.le_refl _, hc⟩
    · rcases ih (start + 1) hc with ⟨k, hk, hx⟩
      exact ⟨k, Nat.le_of_succ_le hk, hx⟩

theorem phList_pairwise : ∀ (count start : Nat),
    List.Pairwise (· ≠ ·) (phList start count) := by
  intro count
  induction count with
  | zero => intro start; simp [phList]
  | succ count ih =>
    intro start
    refine List.Pairwise.cons ?_ (ih (start + 1))
    intro y hy hxy
    rcases mem_phList count (start + 1) hy with ⟨k, hk, hx⟩
    subst hx
    have : start = k := mkPlaceholder_inj hxy
    omega

theorem protect_placeholders :
    ∀ (f counter : Nat) (l : List Char),
      ∃ count, ((protectScanF f counter l).2).map Prod.fst = phList counter count := by
  intro f
  induction f with
  | zero => intro counter l; exact ⟨0, rfl⟩
  | succ f ih =>
    intro counter l
    cases l with
    | nil => exact ⟨0, rfl⟩
    | cons c rest =>
      by_cases hcond : c = '[' ∧ (rest.dropWhile (· != ']')).head? = some ']'
          ∧ rest.takeWhile (· != ']') ≠ []
      · rcases ih (counter + 1) (rest.dropWhile (· != ']')).tail with ⟨count, hcount⟩
        refine ⟨count + 1, ?_⟩
        simp only [protectScanF, if_pos hcond, List.map_cons, phList]
        rw [hcount]
      · rcases ih counter rest with ⟨count, hcount⟩
        refine ⟨count, ?_⟩
        simp only [protectScanF, if_neg hcond]
        exact hcount

/-- C4, amended: within a single invocation the generated placeholder
tokens are pairwise distinct (the counter increases and decimal notation
is injective), so distinct protected spans never share a placeholder; but
the tokens are only heuristically distinct from literal input text — an
input that already contains a placeholder-shaped token is rewritten by the
restore step (see the counterexample), so the "never collide with literal
text" half of the claim does not hold for every input. -/
theorem C4_amended_thm :
    (∀ m n : Nat, m ≠ n → mkPlaceholder m ≠ mkPlaceholder n)
    ∧ ∀ (f counter : Nat) (l : List Char),
        List.Pairwise (fun p q => p.1 ≠ q.1) (protectScanF f counter l).2 := by
  constructor
  · intro m n hmn h
    exact hmn (mkPlaceholder_inj h)
  · intro f counter l
    rcases protect_placeholders f counter l with ⟨count, hcount⟩
    have hpw : List.Pairwise (· ≠ ·) (((protectScanF f counter l).2).map Prod.fst) := by
      rw [hcount]; exact phList_pairwise count counter
    exact List.pairwise_map.mp hpw

/-- Witness for C4: the first two placeholders of an invocation differ. -/
theorem C4_amended_witness : mkPlaceholder 0 ≠ mkPlaceholder 1 :=
  C4_amended_thm.1 0 1 (by decide)

/-! ### The numbered-list-marker normalizer -/

/-- The digits of `\d` restricted to ASCII; no other decimal digit
character occurs in this development. -/
def isAsciiDigit (c : Char) : Bool := 48 ≤ c.toNat && c.toNat ≤ 57

/-- Match attempt of `(?m)^\s*\d+[\.．。]\s*` at a line start: maximal
leading whitespace, at least one digit, a period-like delimiter, maximal
trailing whitespace. -/
def marker1Try (l : List Char) : Option (List Char × Bool) :=
  if (l.dropWhile pyIsSpace).takeWhile isAsciiDigit ≠ [] then
    match (l.dropWhile pyIsSpace).dropWhile isAsciiDigit with
    | d :: r3 =>
      if d = '.' ∨ d = '．' ∨ d = '。' then
        some (r3.dropWhile pyIsSpace,
          if r3.takeWhile pyIsSpace = [] then false
          else (r3.takeWhile pyIsSpace).getLast? == some '\n')
      else none
    | [] => none
  else none

/-- Match attempt of `(?m)^\s*\d+[)、]\s*` at a line start. -/
def marker2Try (l : List Char) : Option (List Char × Bool) :=
  if (l.dropWhile pyIsSpace).takeWhile isAsciiDigit ≠ [] then
    match (l.dropWhile pyIsSpace).dropWhile isAsciiDigit with
    | d :: r3 =>
      if d = ')' ∨ d = '、' then
        some (r3.dropWhile pyIsSpace,
          if r3.takeWhile pyIsSpace = [] then false
          else (r3.takeWhile pyIsSpace).getLast? == some '\n')
      else none
    | [] => none
  else none

/-- Match attempt of `(?m)^\s*[（(]\d+[）)]\s*` at a line start. -/
def marker3Try (l : List Char) : Option (List Char × Bool) :=
  match l.dropWhile pyIsSpace with
  | o :: r1 =>
    if (o = '(' ∨ o = '（') ∧ r1.takeWhile isAsciiDigit ≠ [] then
      match r1.dropWhile isAsciiDigit with
      | cl :: r3 =>
        if cl = ')' ∨ cl = '）' then
          some (r3.dropWhile pyIsSpace,
            if r3.takeWhile pyIsSpace = [] then false
            else (r3.takeWhile pyIsSpace).getLast? == some '\n')
        else none
      | [] => none
    else none
  | [] => none

/-- The three marker substitutions of `filter_numbered_lists`. -/
def marker1Sub (l : List Char) : List Char := lineSubF marker1Try l.length true l

/-- Second marker substitution. -/
def marker2Sub (l : List Char) : List Char := lineSubF marker2Try l.length true l

/-- Third marker substitution. -/
def marker3Sub (l : List Char) : List Char := lineSubF marker3Try l.length true l

/-- `filter_numbered_lists(text)`: the three line-anchored marker
substitutions in source order, then whitespace collapse. -/
def filter_numbered_lists (text : String) : String :=
  collapseWs (String.mk (marker3Sub (marker2Sub (marker1Sub text.data))))

/-! ### Pattern-absence predicates and identity lemmas -/

/-- `tryLine` matches at no line start of the text (the flag records
whether the current position is a line start). -/
def noLineMatchAux (tryLine : List Char → Option (List Char × Bool)) :
    Bool → List Char → Bool
  | _, [] => true
  | atStart, c :: rest =>
    (!atStart || (tryLine (c :: rest)).isNone)
      && noLineMatchAux tryLine (c == '\n') rest

/-- Somewhere a `#` is immediately followed by whitespace — the trigger of
the `#{1,6}\s+` pattern. -/
def hasHashWs : List Char → Bool
  | [] => false
  | [_] => false
  | c :: d :: rest => (c == '#' && pyIsSpace d) || hasHashWs (d :: rest)

theorem lineSubF_id (tryLine : List Char → Option (List Char × Bool)) :
    ∀ (l : List Char) (f : Nat) (b : Bool),
      noLineMatchAux tryLine b l = true → lineSubF tryLine f b l = l := by
  intro l
  induction l with
  | nil =>
    intro f b _
    cases f with
    | zero => rfl
    | succ f => cases b <;> rfl
  | cons c rest ih =>
    intro f b h
    cases f with
    | zero => rfl
    | succ f =>
      simp only [noLineMatchAux, Bool.and_eq_true, Bool.or_eq_true] at h
      cases b with
      | false =>
        simp only [lineSubF]
        rw [ih f (c == '\n') h.2]
      | true =>
        have hnone : tryLine (c :: rest) = none := by
          rcases h.1 with h' | h'
          · simp at h'
          · exact Option.isNone_iff_eq_none.mp h'
        simp only [lineSubF]
        rw [hnone]
        show c :: lineSubF tryLine f (c == '\n') rest = c :: rest
        rw [ih f (c == '\n') h.2]

theorem hasHashWs_cons {c : Char} {rest : List Char}
    (h : hasHashWs (c :: rest) = false) : hasHashWs rest = false := by
  cases rest with
  | nil => rfl
  | cons d t =>
    simp only [hasHashWs, Bool.or_eq_false_iff] at h
    exact h.2

theorem hashRunLemma : ∀ (rest : List Char), hasHashWs ('#' :: rest) = false →
    (rest.dropWhile (· == '#')).takeWhile pyIsSpace = []
    ∧ hasHashWs (rest.dropWhile (· == '#')) = false := by
  intro rest
  induction rest with
  | nil => intro _; exact ⟨rfl, rfl⟩
  | cons d t ih =>
    intro h
    simp only [hasHashWs, Bool.or_eq_false_iff, Bool.and_eq_false_iff] at h
    have hsp : pyIsSpace d = false := by
      rcases h.1 with h' | h'
      · simp at h'
      · exact h'
    have ht : hasHashWs (d :: t) = false := h.2
    by_cases hd : d = '#'
    · subst hd
      rw [List.dropWhile_cons, if_pos (by simp)]
      exact ih ht
    · rw [dropWhile_cons_false _ _ _ (by simpa using hd)]
      exact ⟨takeWhile_cons_false _ _ _ hsp, ht⟩

theorem headerScanF_id : ∀ (f : Nat) (l : List Char),
    hasHashWs l = false → headerScanF f l = l := by
  intro f
  induction f with
  | zero => intro l _; rfl
  | succ f ih =>
    intro l h
    cases l with
    | nil => rfl
    | cons c rest =>
      by_cases hc : c = '#'
      · subst hc
        rcases hashRunLemma rest h with ⟨hws, hrest⟩
        have hcond : ¬((rest.dropWhile (· == '#')).takeWhile pyIsSpace ≠ []) :=
          fun hne => hne hws
        show headerScanF (f + 1) ('#' :: rest) = '#' :: rest
        simp only [headerScanF]
        rw [if_pos trivial, if_neg hcond]
        rw [ih _ hrest]
        rw [List.takeWhile_append_dropWhile]
      · simp only [headerScanF, if_neg hc]
        rw [ih _ (hasHashWs_cons h)]

theorem protectScanF_id : ∀ (f counter : Nat) (l : List Char),
    (∀ c ∈ l, c ≠ '[') → protectScanF f counter l = (l, []) := by
  intro f
  induction f with
  | zero => intro counter l _; rfl
  | succ f ih =>
    intro counter l h
    cases l with
    | nil => rfl
    | cons c rest =>
      have hc : c ≠ '[' := h c (List.mem_cons_self c rest)
      have hcond : ¬(c = '[' ∧ (rest.dropWhile (· != ']')).head? = some ']'
          ∧ rest.takeWhile (· != ']') ≠ []) := fun hco => hc hco.1
      simp only [protectScanF, if_neg hcond]
      rw [ih counter rest (fun d hd => h d (List.mem_cons_of_mem _ hd))]

theorem strayAstAux_id : ∀ (l : List Char) (prev : Option Char),
    (∀ c ∈ l, c ≠ '*') → strayAstAux prev l = l := by
  intro l
  induction l with
  | nil => intro prev _; rfl
  | cons c rest ih =>
    intro prev h
    have hc : c ≠ '*' := h c (List.mem_cons_self c rest)
    have hcond : ¬(c = '*' ∧ prev ≠ some '*' ∧ rest.head? ≠ some '*') :=
      fun hco => hc hco.1
    simp only [strayAstAux, if_neg hcond]
    rw [ih (some c) (fun d hd => h d (List.mem_cons_of_mem _ hd))]

/-! ### Claim C3: idempotence on pattern-free input -/

/-- C3, amended: each stage changes a text free of its target pattern by
at most whitespace normalization, **except** that the Unicode-category
filter must additionally be given NFKC-stable input — compatibility
normalization can rewrite a text none of whose characters the filter
targets (see the counterexample).  Conjunct by conjunct: the asterisk
stage on asterisk-free text, each bracket dialect on text without its two
delimiters, and the list-marker normalizer and the formatting cleanup on
text without their patterns all reduce to the whitespace collapse; the
Unicode filter on valid, NFKC-stable text is the identity (it performs no
collapse at all). -/
theorem C3_amended_thm (text : String) :
    ((∀ c ∈ text.data, c ≠ '*') → filter_asterisks text = collapseWs text)
    ∧ ((∀ c ∈ text.data, c ≠ '[' ∧ c ≠ ']') → filter_brackets text = collapseWs text)
    ∧ ((∀ c ∈ text.data, c ≠ '(' ∧ c ≠ ')') →
        filter_parentheses text = collapseWs text)
    ∧ ((∀ c ∈ text.data, c ≠ '<' ∧ c ≠ '>') →
        filter_angle_brackets text = collapseWs text)
    ∧ ((∀ c ∈ text.data, is_valid_char c = true) → nfkcStr text.data = text.data →
        remove_special_characters text = text)
    ∧ (noLineMatchAux marker1Try true text.data = true →
        noLineMatchAux marker2Try true text.data = true →
        noLineMatchAux marker3Try true text.data = true →
        filter_numbered_lists text = collapseWs text)
    ∧ ((∀ c ∈ text.data, c ≠ '[' ∧ c ≠ '*') → hasHashWs text.data = false →
        noLineMatchAux bulletTry true text.data = true →
        filter_special_formatting text = collapseWs text) := by
  refine ⟨?_, ?_, ?_, ?_, ?_, ?_, ?_⟩
  · intro h
    unfold filter_asterisks
    rw [astScanF_no_star _ _ h]
  · intro h
    unfold filter_brackets _filter_nested
    rw [filterNestedAux_id _ h]
  · intro h
    unfold filter_parentheses _filter_nested
    rw [filterNestedAux_id _ h]
  · intro h
    unfold filter_angle_brackets _filter_nested
    rw [filterNestedAux_id _ h]
  · intro hvalid hstable
    unfold remove_special_characters
    rw [hstable, List.filter_eq_self.mpr hvalid]
  · intro h1 h2 h3
    unfold filter_numbered_lists marker1Sub marker2Sub marker3Sub
    rw [lineSubF_id marker1Try _ _ _ h1, lineSubF_id marker2Try _ _ _ h2,
      lineSubF_id marker3Try _ _ _ h3]
  · intro hchars hhash hbullet
    have hprot : protectSub text.data = (text.data, []) :=
      protectScanF_id _ _ _ (fun c hc => (hchars c hc).1)
    have hstar : ∀ c ∈ text.data, c ≠ '*' := fun c hc => (hchars c hc).2
    unfold filter_special_formatting
    rw [hprot]
    show collapseWs (String.mk (restoreAll []
      (bulletSub (headerSub (strayAst (astSub text.data)))))) = collapseWs text
    unfold astSub strayAst headerSub bulletSub restoreAll
    rw [astScanF_no_star _ _ hstar, strayAstAux_id _ _ hstar,
      headerScanF_id _ _ hhash, lineSubF_id bulletTry _ _ _ hbullet]
    rfl

/-- Witness for C3 at the concrete pattern-free text `"ab  cd"`: every
stage reduces to at most the whitespace collapse (which here merges the
double space), and the Unicode stage leaves the text untouched. -/
theorem C3_amended_witness :
    filter_asterisks "ab  cd" = collapseWs "ab  cd"
    ∧ filter_brackets "ab  cd" = collapseWs "ab  cd"
    ∧ filter_parentheses "ab  cd" = collapseWs "ab  cd"
    ∧ filter_angle_brackets "ab  cd" = collapseWs "ab  cd"
    ∧ remove_special_characters "ab  cd" = "ab  cd"
    ∧ filter_numbered_lists "ab  cd" = collapseWs "ab  cd"
    ∧ filter_special_formatting "ab  cd" = collapseWs "ab  cd" :=
  ⟨(C3_amended_thm "ab  cd").1 (by decide),
   (C3_amended_thm "ab  cd").2.1 (by decide),
   (C3_amended_thm "ab  cd").2.2.1 (by decide),
   (C3_amended_thm "ab  cd").2.2.2.1 (by decide),
   (C3_amended_thm "ab  cd").2.2.2.2.1 (by decide) (by decide),
   (C3_amended_thm "ab  cd").2.2.2.2.2.1 (by decide) (by decide) (by decide),
   (C3_amended_thm "ab  cd").2.2.2.2.2.2 (by decide) (by decide) (by decide)⟩

/-! ### The dispatcher `tts_filter` -/

/-- Severity levels of the diagnostic sink. -/
inductive LogLevel
  | debug | info | warning | critical
deriving DecidableEq

/-- A diagnostic record: severity and message. -/
abbrev LogEntry := LogLevel × String

/-- One guarded stage of the dispatcher — `if flag: try: text = f(text)
except Exception as e: ...`.  On failure the text is left exactly as it
was and the three warning records of the source are appended; a disabled
stage does nothing. -/
def runStage (msg : String) (f : String → Except String String) (flag : Bool)
    (st : String × List LogEntry) : String × List LogEntry :=
  if flag then
    match f st.1 with
    | .ok t => (t, st.2)
    | .error e =>
      (st.1, st.2 ++ [(LogLevel.warning, msg ++ ": " ++ e),
        (LogLevel.warning, "Text: " ++ st.1),
        (LogLevel.warning, "Skipping...")])
  else st

/-- The final translation block — `if translator: try: ... except ...`:
failures are logged at critical severity and the pre-translation text is
kept. -/
def transStep (translator : Option (String → Except String String))
    (st : String × List LogEntry) : String × List LogEntry :=
  match translator with
  | none => st
  | some tr =>
    match tr st.1 with
    | .ok t => (t, st.2 ++ [(LogLevel.info, "Translating..."),
        (LogLevel.info, "Translated: " ++ t)])
    | .error e => (st.1, st.2 ++ [(LogLevel.info, "Translating..."),
        (LogLevel.critical, "Error translating: " ++ e),
        (LogLevel.critical, "Text: " ++ st.1),
        (LogLevel.warning, "Skipping...")])

/-- The dispatcher's final `logger.debug(f"Filtered text: {text}")`. -/
def finalLog (st : String × List LogEntry) : String × List LogEntry :=
  (st.1, st.2 ++ [(LogLevel.debug, "Filtered text: " ++ st.1)])

/-- `tts_filter` generalized over the five stage bodies, so that the
behaviour of the dispatcher on a *failing* stage is statable; the real
pipeline instantiates each body with an infallible stage (the embedded
stage functions are total on strings). -/
def tts_filter_gen (fAst fBr fPar fAng fSpec : String → Except String String)
    (text : String) (remove_special_char ignore_brackets ignore_parentheses
      ignore_asterisks ignore_angle_brackets : Bool)
    (translator : Option (String → Except String String)) :
    String × List LogEntry :=
  finalLog (transStep translator
    (runStage "Error removing special characters" fSpec remove_special_char
      (runStage "Error ignoring angle brackets" fAng ignore_angle_brackets
        (runStage "Error ignoring parentheses" fPar ignore_parentheses
          (runStage "Error ignoring brackets" fBr ignore_brackets
            (runStage "Error ignoring asterisks" fAst ignore_asterisks
              (text, [])))))))

/-- `tts_filter(text, remove_special_char, ignore_brackets,
ignore_parentheses, ignore_asterisks, ignore_angle_brackets, translator)`,
returning the filtered text together with the emitted diagnostic
records. -/
def tts_filter (text : String) (remove_special_char ignore_brackets
      ignore_parentheses ignore_asterisks ignore_angle_brackets : Bool)
    (translator : Option (String → Except String String)) :
    String × List LogEntry :=
  tts_filter_gen (fun t => .ok (filter_asterisks t))
    (fun t => .ok (filter_brackets t))
    (fun t => .ok (filter_parentheses t))
    (fun t => .ok (filter_angle_brackets t))
    (fun t => .ok (remove_special_characters t))
    text remove_special_char ignore_brackets ignore_parentheses
    ignore_asterisks ignore_angle_brackets translator

/-! ### Claims C5 and C6: the dispatcher -/

theorem transStep_fst (translator : Option (String → Except String String))
    (st : String × List LogEntry) :
    (transStep translator st).1
      = match translator with
        | none => st.1
        | some tr => match tr st.1 with | .ok r => r | .error _ => st.1 := by
  cases translator with
  | none => rfl
  | some tr => cases htr : tr st.1 <;> simp [transStep, htr]

/-- C5: failure isolation of the dispatcher.  First conjunct: a guarded
stage's result text is the stage output on success and the *unchanged*
input text on failure — the failing stage is skipped whole, never
partially applied, and `runStage` is total, so nothing propagates to the
caller.  Second conjunct: an enabled stage that raises `e` leaves the text
as it stood and appends exactly the three warning records of the source,
naming the stage and the text.  Third conjunct: a failing translator
leaves the pre-translation text and appends the critical records. -/
theorem C5_error_isolation :
    (∀ (msg : String) (f : String → Except String String)
        (st : String × List LogEntry),
        (runStage msg f true st).1
          = match f st.1 with | .ok r => r | .error _ => st.1)
    ∧ (∀ (msg : String) (f : String → Except String String) (t e : String)
        (log : List LogEntry), f t = .error e →
        runStage msg f true (t, log)
          = (t, log ++ [(LogLevel.warning, msg ++ ": " ++ e),
              (LogLevel.warning, "Text: " ++ t),
              (LogLevel.warning, "Skipping...")]))
    ∧ (∀ (tr : String → Except String String) (t e : String)
        (log : List LogEntry), tr t = .error e →
        transStep (some tr) (t, log)
          = (t, log ++ [(LogLevel.info, "Translating..."),
              (LogLevel.critical, "Error translating: " ++ e),
              (LogLevel.critical, "Text: " ++ t),
              (LogLevel.warning, "Skipping...")])) := by
  refine ⟨?_, ?_, ?_⟩
  · intro msg f st
    cases hf : f st.1 <;> simp [runStage, hf]
  · intro msg f t e log hf
    simp [runStage, hf]
  · intro tr t e log htr
    simp [transStep, htr]

/-- Witness for C5: a stage body that always raises, run at the concrete
text `"x"` — the text survives unchanged and the records are appended;
likewise for an always-failing translator. -/
theorem C5_error_isolation_witness :
    runStage "Error ignoring asterisks" (fun _ => Except.error "boom") true ("x", [])
      = ("x", [(LogLevel.warning, "Error ignoring asterisks" ++ ": " ++ "boom"),
          (LogLevel.warning, "Text: " ++ "x"),
          (LogLevel.warning, "Skipping...")])
    ∧ transStep (some (fun _ => Except.error "boom")) ("x", [])
      = ("x", [(LogLevel.info, "Translating..."),
          (LogLevel.critical, "Error translating: " ++ "boom"),
          (LogLevel.critical, "Text: " ++ "x"),
          (LogLevel.warning, "Skipping...")]) :=
  ⟨C5_error_isolation.2.1 "Error ignoring asterisks"
      (fun _ => Except.error "boom") "x" "boom" [] rfl,
   C5_error_isolation.2.2 (fun _ => Except.error "boom") "x" "boom" [] rfl⟩

/-- The pipeline as §4.6 of the specification words it: asterisk-emphasis
removal, then square-bracket stripping, then parenthesis stripping, then
angle-bracket stripping, then the Unicode-category filter — each applied
exactly when its flag is set, the text passing through unchanged
otherwise — and finally translation exactly when a translator is supplied
(keeping the pre-translation text if it fails). -/
def spec_pipeline (text : String) (remove_special_char ignore_brackets
      ignore_parentheses ignore_asterisks ignore_angle_brackets : Bool)
    (translator : Option (String → Except String String)) : String :=
  let t1 := if ignore_asterisks then filter_asterisks text else text
  let t2 := if ignore_brackets then filter_brackets t1 else t1
  let t3 := if ignore_parentheses then filter_parentheses t2 else t2
  let t4 := if ignore_angle_brackets then filter_angle_brackets t3 else t3
  let t5 := if remove_special_char then remove_special_characters t4 else t4
  match translator with
  | none => t5
  | some tr => match tr t5 with | .ok r => r | .error _ => t5

/-- C6: the text computed by `tts_filter` is exactly the specification's
fixed-order composition — asterisks, then brackets, then parentheses,
then angle brackets, then the Unicode filter, then translation iff a
translator is supplied; every gated stage runs iff its flag is set and a
disabled stage passes the text through unchanged. -/
theorem C6_stage_order (text : String)
    (rsc ib ip ia iab : Bool)
    (translator : Option (String → Except String String)) :
    (tts_filter text rsc ib ip ia iab translator).1
      = spec_pipeline text rsc ib ip ia iab translator := by
  cases ia <;> cases ib <;> cases ip <;> cases iab <;> cases rsc <;>
    simp [tts_filter, tts_filter_gen, finalLog, runStage, spec_pipeline,
      transStep_fst]

end TTSPre
